import Mathlib

/-!
# Verification of the BoneKey cache subsystem (AnimeEffects)

Shallow embedding of `src/core/BoneKey.cpp`: the bone forest (`Bone2`),
per-node caches (`BoneKey::Cache`), the cache orchestration operations
(`resetCaches`, both `updateCaches` overloads, `popCache`, `findCache`,
`destroyCaches`), and the binary serialization protocol
(`serialize` / `deserialize` with deferred node-identity resolution).

Pointer identity is modelled with natural-number tags: scene nodes carry a
node id (`ObjectNode.nid`), caches carry an allocation tag (`Cache.cid`)
drawn from a monotone counter, so "same object instance" is expressible.
Machine `int` counts from the stream are `Int`; the serialized stream is a
list of typed tokens.
-/

namespace AnimeEffects

/-- A mesh as returned by `TimeKeyBlender::getAreaMesh`: the embedding keeps
the two observations BoneKey uses, the vertex count and the frame sign. -/
structure LayerMesh where
  vertexCount : Int
  frameSign : Int
deriving DecidableEq, Repr

/-- A bone node (`Bone2`): its own serializable fields are kept opaque as a
single payload, plus the ordered list of exclusively owned children. -/
inductive Bone2 where
  | mk (payload : Int) (children : List Bone2)

/-- The opaque field payload of a bone. -/
def Bone2.payload : Bone2 → Int
  | .mk p _ => p

/-- The ordered children of a bone. -/
def Bone2.childList : Bone2 → List Bone2
  | .mk _ cs => cs

mutual
/-- Decidable structural equality of bones. -/
def Bone2.decEq : (a b : Bone2) → Decidable (a = b)
  | .mk p cs, .mk q ds =>
    if h1 : p = q then
      match Bone2.decEqList cs ds with
      | isTrue h2 => isTrue (by rw [h1, h2])
      | isFalse h2 => isFalse (fun he => by cases he; exact h2 rfl)
    else isFalse (fun he => by cases he; exact h1 rfl)

/-- Decidable structural equality of bone lists. -/
def Bone2.decEqList : (as bs : List Bone2) → Decidable (as = bs)
  | [], [] => isTrue rfl
  | [], _ :: _ => isFalse (fun he => by cases he)
  | _ :: _, [] => isFalse (fun he => by cases he)
  | a :: as, b :: bs =>
    match Bone2.decEq a b with
    | isTrue h1 =>
      match Bone2.decEqList as bs with
      | isTrue h2 => isTrue (by rw [h1, h2])
      | isFalse h2 => isFalse (fun he => by cases he; exact h2 rfl)
    | isFalse h1 => isFalse (fun he => by cases he; exact h1 rfl)
end

instance : DecidableEq Bone2 := Bone2.decEq

/-- A scene-graph node (`ObjectNode`): an identity tag plus ordered children.
The tag models pointer identity. -/
inductive ObjectNode where
  | mk (nid : Nat) (children : List ObjectNode)

/-- The identity tag of a scene node. -/
def ObjectNode.nid : ObjectNode → Nat
  | .mk i _ => i

/-- The children of a scene node. -/
def ObjectNode.childList : ObjectNode → List ObjectNode
  | .mk _ cs => cs

mutual
/-- Decidable structural equality of scene nodes. -/
def ObjectNode.decEq : (a b : ObjectNode) → Decidable (a = b)
  | .mk p cs, .mk q ds =>
    if h1 : p = q then
      match ObjectNode.decEqList cs ds with
      | isTrue h2 => isTrue (by rw [h1, h2])
      | isFalse h2 => isFalse (fun he => by cases he; exact h2 rfl)
    else isFalse (fun he => by cases he; exact h1 rfl)

/-- Decidable structural equality of scene-node lists. -/
def ObjectNode.decEqList : (as bs : List ObjectNode) → Decidable (as = bs)
  | [], [] => isTrue rfl
  | [], _ :: _ => isFalse (fun he => by cases he)
  | _ :: _, [] => isFalse (fun he => by cases he)
  | a :: as, b :: bs =>
    match ObjectNode.decEq a b with
    | isTrue h1 =>
      match ObjectNode.decEqList as bs with
      | isTrue h2 => isTrue (by rw [h1, h2])
      | isFalse h2 => isFalse (fun he => by cases he; exact h2 rfl)
    | isFalse h1 => isFalse (fun he => by cases he; exact h1 rfl)
end

instance : DecidableEq ObjectNode := ObjectNode.decEq

mutual
/-- Modelled from the spec: `ObjectNode::Iterator` (class not in scope)
visits the subtree rooted at a node in document order, i.e. pre-order:
the node itself, then each child subtree in order. -/
def ObjectNode.subtree : ObjectNode → List ObjectNode
  | .mk i cs => .mk i cs :: ObjectNode.subtreeList cs

/-- Pre-order traversal of a forest of scene nodes, in order. -/
def ObjectNode.subtreeList : List ObjectNode → List ObjectNode
  | [] => []
  | n :: ns => ObjectNode.subtree n ++ ObjectNode.subtreeList ns
end

/-- Modelled from the spec: `util::TreeUtil::leftContainsRight` (file not in
scope) tests whether the right node is a descendant of, or equal to, the
left node; with node tags modelling pointer identity this is membership of
the right node's identity in the left subtree. -/
def leftContainsRight (l r : ObjectNode) : Bool :=
  (ObjectNode.subtree l).any (fun n => n.nid = r.nid)

mutual
/-- Modelled from the spec: `util::TreeUtil::createClone` (file not in
scope) deep-clones a bone and, recursively, its children. -/
def cloneBone : Bone2 → Bone2
  | .mk p cs => .mk p (cloneBones cs)

/-- Deep clone of a list of bones, in order. -/
def cloneBones : List Bone2 → List Bone2
  | [] => []
  | b :: bs => cloneBone b :: cloneBones bs
end

/-- `BoneKey::Cache`: the allocation tag `cid` models the object's address
(so reuse-by-identity is expressible), `node` is the weak node reference
(by node id, `none` when null), plus inner matrix, frame sign and the
influence map, each kept as an opaque serializable payload. -/
structure Cache where
  cid : Nat
  node : Option Nat
  innerMtx : Int
  frameSign : Int
  influence : Int
deriving DecidableEq, Repr

/-- Side effects of one `updateCaches` batch: whether the object-tree write
lock was taken and whether the worker pool was woken (`wakeAll`). -/
structure Effects where
  locked : Bool
  woke : Bool
deriving DecidableEq, Repr

/-- The state of one `BoneKey`: the bone forest (`Data::mTopBones`), the
cache collection, the weak owner reference, the key's own frame, and the
allocation counter supplying fresh cache identities. -/
structure BoneKeyState where
  data : List Bone2
  caches : List Cache
  cacheOwner : Option Nat
  frame : Int
  nextCid : Nat
deriving DecidableEq

/-- `BoneKey::findCache`: first cache whose non-null node reference equals
the given node, or `none`. -/
def findCache : List Cache → Nat → Option Cache
  | [], _ => none
  | c :: cs, nid =>
    match c.node with
    | some m => if m = nid then some c else findCache cs nid
    | none => findCache cs nid

/-- `BoneKey::popCache`: like `findCache` but also removes the first match
from the collection; returns the match (if any) and the remaining list. -/
def popCache : List Cache → Nat → Option Cache × List Cache
  | [], _ => (none, [])
  | c :: cs, nid =>
    match c.node with
    | some m =>
      if m = nid then (some c, cs)
      else
        let r := popCache cs nid
        (r.1, c :: r.2)
    | none =>
      let r := popCache cs nid
      (r.1, c :: r.2)

/-- `BoneKey::destroyCaches`: releases every cache and clears the owner. -/
def destroyCaches (s : BoneKeyState) : BoneKeyState :=
  { s with caches := [], cacheOwner := none }

/-- One target's pass of the core `updateCaches` loop (BoneKey.cpp:109-135).
`meshAt nid f` models `TimeKeyBlender::getAreaMesh` at the time whose frame
is overridden to `f`; `mtxAt nid f` models the recomputed inner matrix
(`getRelativeMatrix` re-centered by the 3D center offset; those helpers are
outside scope and the matrix is opaque). Faithful to the source order, the
frame sign is read from the mesh BEFORE the null check, so an absent mesh
is a null dereference, modelled as `none` (the batch does not complete). -/
def refreshCache (meshAt : Nat → Int → Option LayerMesh) (mtxAt : Nat → Int → Int)
    (frame : Int) (c : Cache) : Option Cache :=
  match c.node with
  | none => none
  | some nid =>
    match meshAt nid frame with
    | none => none
    | some mesh =>
      if mesh.vertexCount ≤ 0 then some { c with frameSign := mesh.frameSign }
      else some { c with frameSign := mesh.frameSign, innerMtx := mtxAt nid frame }

/-- Applies `refreshCache` to every cache in the collection whose identity
is among the batch targets, leaving the others untouched; `none` if any
targeted refresh dereferences an absent mesh or a null node reference. -/
def refreshList (meshAt : Nat → Int → Option LayerMesh) (mtxAt : Nat → Int → Int)
    (frame : Int) (targets : List Nat) : List Cache → Option (List Cache)
  | [] => some []
  | c :: cs =>
    match (if c.cid ∈ targets then refreshCache meshAt mtxAt frame c else some c),
        refreshList meshAt mtxAt frame targets cs with
    | some c1, some cs1 => some (c1 :: cs1)
    | _, _ => none

/-- Core recompute `BoneKey::updateCaches(Project&, QList<Cache*>&)`
(BoneKey.cpp:99-141). An empty target list returns at once, before the
owner assertion, the write lock and the worker wake. Otherwise the owner
must be set (`XC_PTR_ASSERT(owner)`, then dereferenced), the lock is held
for the batch, each target is refreshed, and the worker pool is woken. -/
def updateCachesCore (meshAt : Nat → Int → Option LayerMesh) (mtxAt : Nat → Int → Int)
    (s : BoneKeyState) (targets : List Nat) : Option (BoneKeyState × Effects) :=
  if targets.isEmpty then some (s, ⟨false, false⟩)
  else
    match s.cacheOwner with
    | none => none
    | some _ =>
      match refreshList meshAt mtxAt s.frame targets s.caches with
      | none => none
      | some caches1 => some ({ s with caches := caches1 }, ⟨true, true⟩)

/-- Collection phase of the targeted update over one root's subtree
(BoneKey.cpp:155-166): every visited node's existing cache is collected
unless already collected (`QList::contains` compares pointers, i.e. `cid`).
Nodes without a cache are ignored; no cache is ever created here. -/
def collectNodes (caches : List Cache) : List Nat → List Cache → List Cache
  | [], acc => acc
  | nid :: rest, acc =>
    match findCache caches nid with
    | some c =>
      if c.cid ∈ acc.map (fun x => x.cid) then collectNodes caches rest acc
      else collectNodes caches rest (acc ++ [c])
    | none => collectNodes caches rest acc

/-- Root-filtering phase of the targeted update (BoneKey.cpp:147-167): roots
not inside the owner's subtree are skipped. -/
def collectRoots (caches : List Cache) (owner : ObjectNode) :
    List ObjectNode → List Cache → List Cache
  | [], acc => acc
  | root :: rest, acc =>
    if leftContainsRight owner root then
      collectRoots caches owner rest
        (collectNodes caches ((ObjectNode.subtree root).map ObjectNode.nid) acc)
    else collectRoots caches owner rest acc

/-- The list of existing caches collected by the targeted
`updateCaches(Project&, ObjectNode&, QVector<ObjectNode*>&)`. -/
def collectTargets (owner : ObjectNode) (roots : List ObjectNode)
    (caches : List Cache) : List Cache :=
  collectRoots caches owner roots []

/-- Targeted update `BoneKey::updateCaches(Project&, ObjectNode&, QVector)`
(BoneKey.cpp:143-173): collects existing caches under the qualifying roots,
re-binds the owner reference, and runs the core recompute on them. -/
def updateCachesT (meshAt : Nat → Int → Option LayerMesh) (mtxAt : Nat → Int → Int)
    (owner : ObjectNode) (roots : List ObjectNode) (s : BoneKeyState) :
    Option (BoneKeyState × Effects) :=
  let targets := collectTargets owner roots s.caches
  let s1 := { s with cacheOwner := some owner.nid }
  updateCachesCore meshAt mtxAt s1 (targets.map (fun c => c.cid))

/-- Does this node currently have a mesh with at least one vertex?
(the eligibility test of BoneKey.cpp:189-190, negated). -/
def hasValidMesh (m : Option LayerMesh) : Bool :=
  match m with
  | none => false
  | some mesh => decide (0 < mesh.vertexCount)

/-- A freshly constructed cache (`new Cache()` then `setNode`): default
matrix, frame sign and influence payload, bound to the given node. -/
def newCache (k : Nat) (nid : Nat) : Cache :=
  { cid := k, node := some nid, innerMtx := 0, frameSign := 0, influence := 0 }

/-- The rebuild loop of `resetCaches` (BoneKey.cpp:181-205): visits node
ids in document order; a node with no valid mesh is skipped; otherwise the
old collection is popped for that node and the popped cache is reused, or
a fresh cache is allocated. Returns the new collection and the counter. -/
def resetLoop (meshAt : Nat → Int → Option LayerMesh) (frame : Int) :
    List Nat → List Cache → List Cache → Nat → List Cache × Nat
  | [], _, acc, k => (acc, k)
  | nid :: rest, old, acc, k =>
    if hasValidMesh (meshAt nid frame) then
      match popCache old nid with
      | (some c, old1) => resetLoop meshAt frame rest old1 (acc ++ [c]) k
      | (none, old1) => resetLoop meshAt frame rest old1 (acc ++ [newCache k nid]) (k + 1)
    else resetLoop meshAt frame rest old acc k

/-- `BoneKey::resetCaches` (BoneKey.cpp:175-220): rebuilds the collection
over the owner's subtree, destroys the unused remainder, re-binds the
owner and triggers the core recompute on the whole new collection. -/
def resetCaches (meshAt : Nat → Int → Option LayerMesh) (mtxAt : Nat → Int → Int)
    (owner : ObjectNode) (s : BoneKeyState) : Option (BoneKeyState × Effects) :=
  let r := resetLoop meshAt s.frame ((ObjectNode.subtree owner).map ObjectNode.nid)
    s.caches [] s.nextCid
  let s1 := { s with caches := r.1, cacheOwner := some owner.nid, nextCid := r.2 }
  updateCachesCore meshAt mtxAt s1 (r.1.map (fun c => c.cid))

/-- `BoneKey::Data::operator=` (BoneKey.cpp:25-34) over a store of `Data`
values indexed by object identity: the destination's forest is first
destroyed (`deleteAll`), then every top bone of the right-hand side — read
AFTER the destruction, as in the source — is deep-cloned into it. -/
def dataAssign (h : Nat → List Bone2) (dk sk : Nat) : Nat → List Bone2 :=
  let h1 : Nat → List Bone2 := fun k => if k = dk then [] else h k
  fun k => if k = dk then cloneBones (h1 sk) else h1 k

/-- `BoneKey::Data`'s copy constructor (BoneKey.cpp:17-23): a fresh value
holding a deep clone of the source forest. -/
def dataCopyCtor (src : List Bone2) : List Bone2 :=
  cloneBones src

/-- One typed element of the serialized stream: plain ints (counts), node
identity references (`writeID`, `none` for a null pointer, resolved in the
post-load pass), and the opaque payloads of a matrix, a frame sign, a
bone's own fields and an influence map record. -/
inductive Token where
  | int (n : Int)
  | ref (r : Option Nat)
  | mtx (m : Int)
  | frame (f : Int)
  | bone (p : Int)
  | influ (w : Int)
deriving DecidableEq, Repr

/-- A decode failure: the log-scope stack at the failure and the message
passed to `Deserializer::errored`. -/
structure DeError where
  scopes : List String
  msg : String
deriving DecidableEq, Repr

/-- Reads one raw int from the stream. -/
def readInt : List Token → Option (Int × List Token)
  | Token.int n :: ts => some (n, ts)
  | _ => none

/-- Reads one identity reference from the stream (`orderIDData`: the
deferred resolution is modelled as immediate, the reference being the
node's identity tag itself, `none` for a null pointer). -/
def readRef : List Token → Option (Option Nat × List Token)
  | Token.ref r :: ts => some (r, ts)
  | _ => none

/-- Reads one matrix payload from the stream. -/
def readMtx : List Token → Option (Int × List Token)
  | Token.mtx m :: ts => some (m, ts)
  | _ => none

/-- Reads one frame-sign payload from the stream. -/
def readFrame : List Token → Option (Int × List Token)
  | Token.frame f :: ts => some (f, ts)
  | _ => none

/-- Reads one bone field payload from the stream (`Bone2::deserialize`,
outside scope; its fields are opaque). -/
def readBone : List Token → Option (Int × List Token)
  | Token.bone p :: ts => some (p, ts)
  | _ => none

/-- Reads one influence map record (`BoneInfluenceMap::deserialize`,
outside scope; the record is opaque). -/
def readInflu : List Token → Option (Int × List Token)
  | Token.influ w :: ts => some (w, ts)
  | _ => none

mutual
/-- `BoneKey::serializeBone` (BoneKey.cpp:293-316): child count, the bone's
own fields, then each child recursively, in order. -/
def serializeBone : Bone2 → List Token
  | .mk p cs => Token.int (Int.ofNat cs.length) :: Token.bone p :: serializeBones cs

/-- Serialization of a bone list, in order. -/
def serializeBones : List Bone2 → List Token
  | [] => []
  | b :: bs => serializeBone b ++ serializeBones bs
end

/-- Serialization of one cache entry (BoneKey.cpp:278-288): node reference,
inner matrix, frame sign, influence record. -/
def serializeCache (c : Cache) : List Token :=
  [Token.ref c.node, Token.mtx c.innerMtx, Token.frame c.frameSign, Token.influ c.influence]

/-- Serialization of the cache list, in order. -/
def serializeCaches : List Cache → List Token
  | [] => []
  | c :: cs => serializeCache c ++ serializeCaches cs

/-- `BoneKey::serialize` (BoneKey.cpp:256-291): top bone count, every top
bone depth-first, the cache owner reference, the cache count, then every
cache entry. -/
def serializeBK (s : BoneKeyState) : List Token :=
  Token.int (Int.ofNat s.data.length)
    :: (serializeBones s.data
      ++ Token.ref s.cacheOwner
      :: Token.int (Int.ofNat s.caches.length)
      :: serializeCaches s.caches)

/-- Result of decoding a run of bones: on failure the bones decoded so
far plus the partially constructed failing one are kept (each bone is
pushed default-constructed into its parent list before being decoded, as
in the source). -/
inductive ChildrenRes where
  | ok (bs : List Bone2) (rest : List Token)
  | err (leftover : List Bone2) (e : DeError)
deriving DecidableEq

/-- `BoneKey::deserializeBone` (BoneKey.cpp:404-435) together with its two
call sites' loops (the child loop BoneKey.cpp:423-432 and the top bone
loop BoneKey.cpp:334-343): decodes a run of `n` bone records, each being a
child count (negative is the format error "invalid child count"), the
bone's own fields, and recursively that many children. `fuel` bounds the
recursion and decreases on every call, so the function is structurally
recursive; any fuel exceeding the stream length is enough (one unit is
spent per decoded bone along a recursion path). -/
def deserializeBonesN : Nat → Nat → List Token → List String → ChildrenRes
  | 0, _, _, sc => .err [] ⟨sc, "stream error"⟩
  | Nat.succ _, 0, ts, _ => .ok [] ts
  | Nat.succ f, Nat.succ n, ts, sc =>
    match readInt ts with
    | none => .err [.mk 0 []] ⟨sc, "stream error"⟩
    | some (c, ts1) =>
      if c < 0 then .err [.mk 0 []] ⟨sc, "invalid child count"⟩
      else
        match readBone ts1 with
        | none => .err [.mk 0 []] ⟨sc, "stream error"⟩
        | some (p, ts2) =>
          match deserializeBonesN f c.toNat ts2 sc with
          | .err cs e => .err [.mk p cs] e
          | .ok cs ts3 =>
            match deserializeBonesN f n ts3 sc with
            | .ok bs ts4 => .ok (.mk p cs :: bs) ts4
            | .err bs e => .err (.mk p cs :: bs) e

/-- Result of the cache loop: decoded caches and the next allocation tag,
or the caches decoded so far (the failing one included, as it is pushed
into the collection before being filled) with the failure. -/
inductive CachesRes where
  | ok (cs : List Cache) (rest : List Token) (k : Nat)
  | err (cs : List Cache) (e : DeError)
deriving DecidableEq

/-- The cache loop of `BoneKey::deserialize` (BoneKey.cpp:366-398): each
entry is a fresh default cache whose node reference is resolved from the
stream (a null resolution leaves it unset), then matrix, frame sign and
influence record are read into it. -/
def deserializeCaches : Nat → List Token → List String → Nat → CachesRes
  | 0, ts, _, k => .ok [] ts k
  | Nat.succ n, ts, sc, k =>
    let c0 : Cache := { cid := k, node := none, innerMtx := 0, frameSign := 0, influence := 0 }
    match readRef ts with
    | none => .err [c0] ⟨sc, "invalid cache reference id"⟩
    | some (r, ts1) =>
      let c1 := { c0 with node := match r with | some nid => some nid | none => c0.node }
      match readMtx ts1 with
      | none => .err [c1] ⟨sc, "stream error"⟩
      | some (m, ts2) =>
        let c2 := { c1 with innerMtx := m }
        match readFrame ts2 with
        | none => .err [c2] ⟨sc, "stream error"⟩
        | some (fr, ts3) =>
          let c3 := { c2 with frameSign := fr }
          match readInflu ts3 with
          | none => .err [c3] ⟨sc, "stream error"⟩
          | some (w, ts4) =>
            let c4 := { c3 with influence := w }
            match deserializeCaches n ts4 sc (k + 1) with
            | .ok cs rest k1 => .ok (c4 :: cs) rest k1
            | .err cs e => .err (c4 :: cs) e

/-- Result of a full `deserialize`: the state reached (also on failure, as
the source mutates the key in place) and, on success, the remaining
stream, or the failure description. -/
inductive DeResult where
  | ok (s : BoneKeyState) (rest : List Token)
  | err (s : BoneKeyState) (e : DeError)
deriving DecidableEq

/-- The state carried by a decode result. -/
def DeResult.stateOf : DeResult → BoneKeyState
  | .ok s _ => s
  | .err s _ => s

/-- The failure description of a decode result, if it failed. -/
def DeResult.errInfo : DeResult → Option DeError
  | .ok _ _ => none
  | .err _ e => some e

/-- Whether a decode result succeeded. -/
def DeResult.isOk : DeResult → Bool
  | .ok _ _ => true
  | .err _ _ => false

/-- `BoneKey::deserialize` (BoneKey.cpp:318-402): clears the forest and the
caches, pushes the log scope "BoneKey", reads the top bone count (negative
is the format error "invalid top bone count"), decodes the top bones,
resolves the owner reference (a null resolution leaves the owner unset),
reads the cache count (negative is "invalid cache count"), then decodes
the cache entries. Bones and caches are pushed before being filled, so a
mid-stream failure keeps the partially decoded state. -/
def deserializeBK (s0 : BoneKeyState) (ts : List Token) : DeResult :=
  let s := { s0 with data := [], caches := [], cacheOwner := none }
  let sc := ["BoneKey"]
  match readInt ts with
  | none => .err s ⟨sc, "stream error"⟩
  | some (n, ts1) =>
    if n < 0 then .err s ⟨sc, "invalid top bone count"⟩
    else
      match deserializeBonesN (ts1.length + 1) n.toNat ts1 sc with
      | .err bs e => .err { s with data := bs } e
      | .ok bones ts2 =>
        let s1 := { s with data := bones }
        match readRef ts2 with
        | none => .err s1 ⟨sc, "invalid cache owner reference id"⟩
        | some (r, ts3) =>
          let s2 := { s1 with cacheOwner :=
            match r with | some nid => some nid | none => s1.cacheOwner }
          match readInt ts3 with
          | none => .err s2 ⟨sc, "stream error"⟩
          | some (m, ts4) =>
            if m < 0 then .err s2 ⟨sc, "invalid cache count"⟩
            else
              match deserializeCaches m.toNat ts4 sc s2.nextCid with
              | .err cs e => .err { s2 with caches := cs } e
              | .ok cs rest k => .ok { s2 with caches := cs, nextCid := k } rest

/-- The cache list rebuilt by a full decode of an encoded cache list: the
same per-cache data, carried by freshly allocated cache objects whose
identity tags are drawn consecutively from `k` (`new Cache()` per entry). -/
def restoreCaches (k : Nat) : List Cache → List Cache
  | [] => []
  | c :: cs =>
    { cid := k, node := c.node, innerMtx := c.innerMtx,
      frameSign := c.frameSign, influence := c.influence } :: restoreCaches (k + 1) cs

/-- The structurally observable content of a cache, its identity tag left
out: bound node, inner matrix, frame sign, influence record. -/
def cacheStruct (c : Cache) : Option Nat × Int × Int × Int :=
  (c.node, c.innerMtx, c.frameSign, c.influence)

/-- A bone-record stream on which the decoder reads a negative child count
at an arbitrary position: each path frame `(p, pre)` opens one bone record
(payload `p`) declaring one more child than the completed children `pre`
that precede the poisoned one, and the decoder descends into it; at the
end of the path the next record begins with the negative count `n` itself.
With a leading run of complete bones this reaches any bone of a stream. -/
def badBoneSection (n : Int) : List (Int × List Bone2) → List Token
  | [] => [Token.int n]
  | (p, pre) :: path =>
    Token.int (Int.ofNat (pre.length + 1)) :: Token.bone p
      :: (serializeBones pre ++ badBoneSection n path)

/-! ### Concrete example inputs used by witnesses and counterexamples -/

/-- Example scene graph: owner node 0 with children 1 and 2; node 2 has a
child 3. All identity tags are distinct. -/
def exOwner : ObjectNode := .mk 0 [.mk 1 [], .mk 2 [.mk 3 []]]

/-- Example root inside the owner subtree: the subtree rooted at node 2. -/
def exRoot2 : ObjectNode := .mk 2 [.mk 3 []]

/-- Example mesh environment: node 1 has no mesh, node 3 an empty mesh,
every other node a two-vertex mesh whose frame sign tracks the frame. -/
def exMeshAt : Nat → Int → Option LayerMesh := fun n f =>
  if n = 1 then none
  else some { vertexCount := if n = 3 then 0 else 2, frameSign := 100 + f }

/-- Example inner-matrix environment. -/
def exMtxAt : Nat → Int → Int := fun n f => 10 * (Int.ofNat n) + f

/-- Mesh environment with no mesh for any node. -/
def exNoMesh : Nat → Int → Option LayerMesh := fun _ _ => none

/-- Trivial inner-matrix environment. -/
def exZeroMtx : Nat → Int → Int := fun _ _ => 0

/-- An empty key at frame 4, before any rebuild. -/
def exEmptyState : BoneKeyState :=
  { data := [], caches := [], cacheOwner := none, frame := 4, nextCid := 0 }

/-- The key reached from `exEmptyState` by `resetCaches` over `exOwner`
under `exMeshAt`/`exMtxAt`: caches exactly for nodes 0 and 2. -/
def exResetState : BoneKeyState :=
  { data := [],
    caches := [{ cid := 0, node := some 0, innerMtx := 4, frameSign := 104, influence := 0 },
      { cid := 1, node := some 2, innerMtx := 24, frameSign := 104, influence := 0 }],
    cacheOwner := some 0, frame := 4, nextCid := 2 }

/-- A key holding one cache bound to node 1, with an owner set. -/
def exC1State : BoneKeyState :=
  { data := [],
    caches := [{ cid := 0, node := some 1, innerMtx := 0, frameSign := 0, influence := 0 }],
    cacheOwner := some 0, frame := 0, nextCid := 1 }

/-- A stream declaring one top bone whose child count is -1. -/
def exC7Stream : List Token := [Token.int 1, Token.int (-1)]

/-- A stream with no bones, owner reference 7 and two cache records that
both name node 3. -/
def exC9Stream : List Token :=
  [Token.int 0, Token.ref (some 7), Token.int 2,
   Token.ref (some 3), Token.mtx 0, Token.frame 0, Token.influ 0,
   Token.ref (some 3), Token.mtx 1, Token.frame 1, Token.influ 1]

/-- A store of two Data values: key 0 holds a one-bone forest, key 1 is
empty. -/
def exHeap : Nat → List Bone2 := fun k => if k = 0 then [Bone2.mk 7 []] else []

/-! ### Lemmas: cache lookup and removal -/

theorem findCache_spec : ∀ {cs : List Cache} {nid : Nat} {c : Cache},
    findCache cs nid = some c → c ∈ cs ∧ c.node = some nid := by
  intro cs
  induction cs with
  | nil => intro nid c h; simp [findCache] at h
  | cons a as ih =>
    intro nid c h
    unfold findCache at h
    split at h
    next m hm =>
      split at h
      next hmn =>
        cases h
        exact ⟨List.mem_cons_self _ _, by rw [hm, hmn]⟩
      next hmn =>
        rcases ih h with ⟨h1, h2⟩
        exact ⟨List.mem_cons_of_mem _ h1, h2⟩
    next hm =>
      rcases ih h with ⟨h1, h2⟩
      exact ⟨List.mem_cons_of_mem _ h1, h2⟩

theorem popCache_fst_spec : ∀ {cs : List Cache} {nid : Nat} {c : Cache},
    (popCache cs nid).1 = some c → c.node = some nid := by
  intro cs
  induction cs with
  | nil => intro nid c h; simp [popCache] at h
  | cons a as ih =>
    intro nid c h
    unfold popCache at h
    split at h
    next m hm =>
      split at h
      next hmn => cases h; rw [hm, hmn]
      next hmn => exact ih h
    next hm => exact ih h

theorem popCache_sublist : ∀ (cs : List Cache) (nid : Nat),
    List.Sublist (popCache cs nid).2 cs := by
  intro cs
  induction cs with
  | nil => intro nid; simp [popCache]
  | cons a as ih =>
    intro nid
    unfold popCache
    split
    next m hm =>
      by_cases hmn : m = nid
      · rw [if_pos hmn]
        exact List.sublist_cons_self a as
      · rw [if_neg hmn]
        exact List.Sublist.cons₂ a (ih nid)
    next hm => exact List.Sublist.cons₂ a (ih nid)

theorem popCache_head {c : Cache} {cs : List Cache} {nid : Nat}
    (h : c.node = some nid) : popCache (c :: cs) nid = (some c, cs) := by
  simp [popCache, h]

/-! ### Lemmas: the per-target refresh -/

theorem refreshCache_preserves {m : Nat → Int → Option LayerMesh} {mt : Nat → Int → Int}
    {fr : Int} {c c' : Cache} (h : refreshCache m mt fr c = some c') :
    c'.cid = c.cid ∧ c'.node = c.node := by
  unfold refreshCache at h
  split at h
  next hn => cases h
  next nid hn =>
    split at h
    next hm => cases h
    next mesh hm =>
      split at h
      next hv => cases h; exact ⟨rfl, rfl⟩
      next hv => cases h; exact ⟨rfl, rfl⟩

theorem refreshCache_idem {m : Nat → Int → Option LayerMesh} {mt : Nat → Int → Int}
    {fr : Int} {c c' : Cache} (h : refreshCache m mt fr c = some c') :
    refreshCache m mt fr c' = some c' := by
  unfold refreshCache at h
  split at h
  next hn => cases h
  next nid hn =>
    split at h
    next hm => cases h
    next mesh hm =>
      split at h
      next hv =>
        cases h
        simp [refreshCache, hn, hm, hv]
      next hv =>
        cases h
        simp [refreshCache, hn, hm, hv]

/-! ### Lemmas: the batch refresh -/

theorem refreshList_map_cid {m : Nat → Int → Option LayerMesh} {mt : Nat → Int → Int}
    {fr : Int} {tg : List Nat} : ∀ {cs cs' : List Cache},
    refreshList m mt fr tg cs = some cs' →
    cs'.map (fun c => c.cid) = cs.map (fun c => c.cid) := by
  intro cs
  induction cs with
  | nil => intro cs' h; cases h; rfl
  | cons a as ih =>
    intro cs' h
    unfold refreshList at h
    split at h
    next c1 cs1 heq1 heq2 =>
      cases h
      have h1 : c1.cid = a.cid := by
        by_cases ht : a.cid ∈ tg
        · rw [if_pos ht] at heq1
          exact (refreshCache_preserves heq1).1
        · rw [if_neg ht] at heq1; cases heq1; rfl
      simp only [List.map_cons, ih heq2, h1]
    next => cases h

theorem refreshList_map_node {m : Nat → Int → Option LayerMesh} {mt : Nat → Int → Int}
    {fr : Int} {tg : List Nat} : ∀ {cs cs' : List Cache},
    refreshList m mt fr tg cs = some cs' →
    cs'.map (fun c => c.node) = cs.map (fun c => c.node) := by
  intro cs
  induction cs with
  | nil => intro cs' h; cases h; rfl
  | cons a as ih =>
    intro cs' h
    unfold refreshList at h
    split at h
    next c1 cs1 heq1 heq2 =>
      cases h
      have h1 : c1.node = a.node := by
        by_cases ht : a.cid ∈ tg
        · rw [if_pos ht] at heq1
          exact (refreshCache_preserves heq1).2
        · rw [if_neg ht] at heq1; cases heq1; rfl
      simp only [List.map_cons, ih heq2, h1]
    next => cases h

theorem refreshList_untargeted {m : Nat → Int → Option LayerMesh} {mt : Nat → Int → Int}
    {fr : Int} {tg : List Nat} : ∀ {cs cs' : List Cache},
    refreshList m mt fr tg cs = some cs' →
    ∀ c ∈ cs, c.cid ∉ tg → c ∈ cs' := by
  intro cs
  induction cs with
  | nil => intro cs' h c hc; cases hc
  | cons a as ih =>
    intro cs' h c hc hnt
    unfold refreshList at h
    split at h
    next c1 cs1 heq1 heq2 =>
      cases h
      cases List.mem_cons.mp hc with
      | inl he =>
        subst he
        rw [if_neg hnt] at heq1
        cases heq1
        exact List.mem_cons_self _ _
      | inr he => exact List.mem_cons_of_mem _ (ih heq2 c he hnt)
    next => cases h

theorem refreshList_fixed {m : Nat → Int → Option LayerMesh} {mt : Nat → Int → Int}
    {fr : Int} {tg : List Nat} : ∀ {cs cs' : List Cache},
    refreshList m mt fr tg cs = some cs' →
    (∀ c ∈ cs, c.cid ∈ tg) →
    ∀ c' ∈ cs', refreshCache m mt fr c' = some c' := by
  intro cs
  induction cs with
  | nil => intro cs' h hall c' hc'; cases h; cases hc'
  | cons a as ih =>
    intro cs' h hall c' hc'
    unfold refreshList at h
    split at h
    next c1 cs1 heq1 heq2 =>
      cases h
      rw [if_pos (hall a (List.mem_cons_self _ _))] at heq1
      cases List.mem_cons.mp hc' with
      | inl he => exact he ▸ refreshCache_idem heq1
      | inr he =>
        exact ih heq2 (fun c hc => hall c (List.mem_cons_of_mem _ hc)) c' he
    next => cases h

theorem refreshList_of_fixed {m : Nat → Int → Option LayerMesh} {mt : Nat → Int → Int}
    {fr : Int} {tg : List Nat} : ∀ {cs : List Cache},
    (∀ c ∈ cs, refreshCache m mt fr c = some c) →
    refreshList m mt fr tg cs = some cs := by
  intro cs
  induction cs with
  | nil => intro _; rfl
  | cons a as ih =>
    intro hfix
    have ha : (if a.cid ∈ tg then refreshCache m mt fr a else some a) = some a := by
      by_cases ht : a.cid ∈ tg
      · rw [if_pos ht]; exact hfix a (List.mem_cons_self _ _)
      · rw [if_neg ht]
    unfold refreshList
    rw [ha, ih (fun c hc => hfix c (List.mem_cons_of_mem _ hc))]

/-! ### Lemmas: the rebuild loop of resetCaches -/

theorem resetLoop_map_node (m : Nat → Int → Option LayerMesh) (fr : Int) :
    ∀ (nids : List Nat) (old acc : List Cache) (k : Nat),
    (resetLoop m fr nids old acc k).1.map (fun c => c.node)
      = acc.map (fun c => c.node)
        ++ ((nids.filter (fun nid => hasValidMesh (m nid fr))).map some) := by
  intro nids
  induction nids with
  | nil => intro old acc k; simp [resetLoop]
  | cons nid rest ih =>
    intro old acc k
    by_cases hq : hasValidMesh (m nid fr) = true
    · cases hp : popCache old nid with
      | mk oc old1 =>
        cases oc with
        | some c =>
          have hc : c.node = some nid := popCache_fst_spec (by rw [hp])
          simp only [resetLoop, hq, if_true, hp]
          rw [ih old1 (acc ++ [c]) k]
          simp [List.filter_cons, hq, hc]
        | none =>
          simp only [resetLoop, hq, if_true, hp]
          rw [ih old1 (acc ++ [newCache k nid]) (k + 1)]
          simp [List.filter_cons, hq, newCache]
    · simp only [resetLoop, hq, Bool.false_eq_true, if_false]
      rw [ih old acc k]
      simp [List.filter_cons, hq]

theorem resetLoop_aligned (m : Nat → Int → Option LayerMesh) (fr : Int) :
    ∀ (nids : List Nat) (cs acc : List Cache) (k : Nat),
    cs.map (fun c => c.node)
      = ((nids.filter (fun nid => hasValidMesh (m nid fr))).map some) →
    resetLoop m fr nids cs acc k = (acc ++ cs, k) := by
  intro nids
  induction nids with
  | nil =>
    intro cs acc k h
    cases cs with
    | nil => simp [resetLoop]
    | cons c cs2 => simp at h
  | cons nid rest ih =>
    intro cs acc k h
    by_cases hq : hasValidMesh (m nid fr) = true
    · simp only [List.filter_cons, hq, if_true] at h
      cases cs with
      | nil => simp at h
      | cons c cs2 =>
        simp only [List.map_cons] at h
        injection h with h1 h2
        have hpop : popCache (c :: cs2) nid = (some c, cs2) := popCache_head h1
        simp only [resetLoop, hq, if_true, hpop]
        rw [ih cs2 (acc ++ [c]) k h2]
        simp
    · simp only [List.filter_cons, hq, Bool.false_eq_true, if_false] at h
      simp only [resetLoop, hq, Bool.false_eq_true, if_false]
      exact ih cs acc k h

/-! ### Shape of a completed resetCaches -/

theorem resetCaches_shape {m : Nat → Int → Option LayerMesh} {mt : Nat → Int → Int}
    {owner : ObjectNode} {s s' : BoneKeyState} {e : Effects}
    (h : resetCaches m mt owner s = some (s', e)) :
    s'.caches.map (fun c => c.node)
      = (((ObjectNode.subtree owner).map ObjectNode.nid).filter
          (fun nid => hasValidMesh (m nid s.frame))).map some
    ∧ s'.cacheOwner = some owner.nid ∧ s'.frame = s.frame ∧ s'.data = s.data
    ∧ (∀ c' ∈ s'.caches, refreshCache m mt s.frame c' = some c')
    ∧ s'.nextCid = (resetLoop m s.frame ((ObjectNode.subtree owner).map ObjectNode.nid)
        s.caches [] s.nextCid).2 := by
  simp only [resetCaches] at h
  generalize hRL : resetLoop m s.frame ((ObjectNode.subtree owner).map ObjectNode.nid)
      s.caches [] s.nextCid = rl at h
  obtain ⟨cs1, k1⟩ := rl
  have hmap : cs1.map (fun c => c.node)
      = (((ObjectNode.subtree owner).map ObjectNode.nid).filter
          (fun nid => hasValidMesh (m nid s.frame))).map some := by
    have := resetLoop_map_node m s.frame ((ObjectNode.subtree owner).map ObjectNode.nid)
      s.caches [] s.nextCid
    rw [hRL] at this
    simpa using this
  simp only [updateCachesCore] at h
  split at h
  next hemp =>
    cases h
    have hnil : cs1 = [] := by
      cases cs1 with
      | nil => rfl
      | cons c cs2 => simp at hemp
    subst hnil
    exact ⟨hmap, rfl, rfl, rfl, fun c' hc' => absurd hc' (List.not_mem_nil c'), rfl⟩
  next hemp =>
    split at h
    next => cases h
    next cs2 heq =>
      cases h
      refine ⟨?_, rfl, rfl, rfl, ?_, rfl⟩
      · rw [refreshList_map_node heq, hmap]
      · intro c' hc'
        exact refreshList_fixed heq
          (fun c hc => List.mem_map_of_mem _ hc) c' hc'

/-! ### Shape of a completed targeted updateCaches -/

theorem updateCachesT_shape {m : Nat → Int → Option LayerMesh} {mt : Nat → Int → Int}
    {owner : ObjectNode} {roots : List ObjectNode} {s s' : BoneKeyState} {e : Effects}
    (h : updateCachesT m mt owner roots s = some (s', e)) :
    s'.caches.map (fun c => c.node) = s.caches.map (fun c => c.node)
    ∧ s'.caches.map (fun c => c.cid) = s.caches.map (fun c => c.cid)
    ∧ s'.cacheOwner = some owner.nid
    ∧ s'.frame = s.frame ∧ s'.data = s.data
    ∧ ∀ c ∈ s.caches,
        c.cid ∉ (collectTargets owner roots s.caches).map (fun c => c.cid) → c ∈ s'.caches := by
  simp only [updateCachesT, updateCachesCore] at h
  split at h
  next hemp =>
    cases h
    exact ⟨rfl, rfl, rfl, rfl, rfl, fun c hc _ => hc⟩
  next hemp =>
    split at h
    next => cases h
    next cs2 heq =>
      cases h
      exact ⟨refreshList_map_node heq, refreshList_map_cid heq, rfl, rfl, rfl,
        fun c hc hnt => refreshList_untargeted heq c hc hnt⟩

/-! ### Lemmas: the collection phase of the targeted update -/

theorem collectNodes_mem (caches : List Cache) :
    ∀ (nids : List Nat) (acc : List Cache) (c : Cache),
    c ∈ collectNodes caches nids acc →
    c ∈ acc ∨ (c ∈ caches ∧ ∃ nid ∈ nids, c.node = some nid) := by
  intro nids
  induction nids with
  | nil => intro acc c h; exact Or.inl h
  | cons nid rest ih =>
    intro acc c h
    unfold collectNodes at h
    split at h
    next c0 hf =>
      split at h
      next hin =>
        rcases ih acc c h with h1 | ⟨hc, n2, hn2, he⟩
        · exact Or.inl h1
        · exact Or.inr ⟨hc, n2, List.mem_cons_of_mem _ hn2, he⟩
      next hin =>
        rcases ih (acc ++ [c0]) c h with h1 | ⟨hc, n2, hn2, he⟩
        · rcases List.mem_append.mp h1 with h2 | h2
          · exact Or.inl h2
          · have he0 : c = c0 := List.mem_singleton.mp h2
            subst he0
            rcases findCache_spec hf with ⟨hmem, hnode⟩
            exact Or.inr ⟨hmem, nid, List.mem_cons_self _ _, hnode⟩
        · exact Or.inr ⟨hc, n2, List.mem_cons_of_mem _ hn2, he⟩
    next hf =>
      rcases ih acc c h with h1 | ⟨hc, n2, hn2, he⟩
      · exact Or.inl h1
      · exact Or.inr ⟨hc, n2, List.mem_cons_of_mem _ hn2, he⟩

theorem collectNodes_nodup (caches : List Cache) :
    ∀ (nids : List Nat) (acc : List Cache),
    (acc.map (fun c => c.cid)).Nodup →
    ((collectNodes caches nids acc).map (fun c => c.cid)).Nodup := by
  intro nids
  induction nids with
  | nil => intro acc h; exact h
  | cons nid rest ih =>
    intro acc h
    unfold collectNodes
    split
    next c0 hf =>
      split
      next hin => exact ih acc h
      next hin =>
        apply ih
        rw [List.map_append]
        refine List.Nodup.append h (List.nodup_singleton _) ?_
        intro x hx hx2
        simp only [List.map_cons, List.map_nil, List.mem_singleton] at hx2
        subst hx2
        exact hin hx
    next hf => exact ih acc h

theorem collectRoots_mem (caches : List Cache) (owner : ObjectNode) :
    ∀ (roots : List ObjectNode) (acc : List Cache) (c : Cache),
    c ∈ collectRoots caches owner roots acc →
    c ∈ acc ∨ (c ∈ caches ∧ ∃ r ∈ roots, leftContainsRight owner r = true ∧
      ∃ nid ∈ (ObjectNode.subtree r).map ObjectNode.nid, c.node = some nid) := by
  intro roots
  induction roots with
  | nil => intro acc c h; exact Or.inl h
  | cons root rest ih =>
    intro acc c h
    unfold collectRoots at h
    split at h
    next hlcr =>
      rcases ih _ c h with h1 | ⟨hc, r2, hr2, hl2, n2, hn2, he⟩
      · rcases collectNodes_mem caches _ acc c h1 with h2 | ⟨hc, n2, hn2, he⟩
        · exact Or.inl h2
        · exact Or.inr ⟨hc, root, List.mem_cons_self _ _, hlcr, n2, hn2, he⟩
      · exact Or.inr ⟨hc, r2, List.mem_cons_of_mem _ hr2, hl2, n2, hn2, he⟩
    next hlcr =>
      rcases ih acc c h with h1 | ⟨hc, r2, hr2, hl2, n2, hn2, he⟩
      · exact Or.inl h1
      · exact Or.inr ⟨hc, r2, List.mem_cons_of_mem _ hr2, hl2, n2, hn2, he⟩

theorem collectRoots_nodup (caches : List Cache) (owner : ObjectNode) :
    ∀ (roots : List ObjectNode) (acc : List Cache),
    (acc.map (fun c => c.cid)).Nodup →
    ((collectRoots caches owner roots acc).map (fun c => c.cid)).Nodup := by
  intro roots
  induction roots with
  | nil => intro acc h; exact h
  | cons root rest ih =>
    intro acc h
    unfold collectRoots
    split
    next hlcr => exact ih _ (collectNodes_nodup caches _ acc h)
    next hlcr => exact ih acc h

theorem collectTargets_mem {owner : ObjectNode} {roots : List ObjectNode}
    {caches : List Cache} {c : Cache} (h : c ∈ collectTargets owner roots caches) :
    c ∈ caches ∧ ∃ r ∈ roots, leftContainsRight owner r = true ∧
      ∃ nid ∈ (ObjectNode.subtree r).map ObjectNode.nid, c.node = some nid := by
  rcases collectRoots_mem caches owner roots [] c h with h1 | h2
  · cases h1
  · exact h2

theorem collectTargets_nodup (owner : ObjectNode) (roots : List ObjectNode)
    (caches : List Cache) :
    ((collectTargets owner roots caches).map (fun c => c.cid)).Nodup :=
  collectRoots_nodup caches owner roots [] (by simp)

/-! ### Helpers: reading node bindings off a cache list -/

theorem mem_node_of_map_eq {cs : List Cache} {l : List Nat}
    (h : cs.map (fun c => c.node) = l.map some) (nid : Nat) :
    (∃ c ∈ cs, c.node = some nid) ↔ nid ∈ l := by
  constructor
  · rintro ⟨c, hc, hn⟩
    have h1 : (some nid : Option Nat) ∈ cs.map (fun c => c.node) := by
      rw [← hn]
      exact List.mem_map_of_mem _ hc
    rw [h] at h1
    rcases List.mem_map.mp h1 with ⟨x, hx, hxe⟩
    cases hxe
    exact hx
  · intro hl
    have h1 : (some nid : Option Nat) ∈ l.map some := List.mem_map_of_mem _ hl
    rw [← h] at h1
    rcases List.mem_map.mp h1 with ⟨c, hc, hce⟩
    exact ⟨c, hc, hce⟩

theorem filterMap_node_of_map_eq : ∀ {cs : List Cache} {l : List Nat},
    cs.map (fun c => c.node) = l.map some →
    cs.filterMap (fun c => c.node) = l := by
  intro cs
  induction cs with
  | nil =>
    intro l h
    cases l with
    | nil => rfl
    | cons x xs => simp at h
  | cons a as ih =>
    intro l h
    cases l with
    | nil => simp at h
    | cons x xs =>
      simp only [List.map_cons] at h
      injection h with h1 h2
      simp [List.filterMap_cons, h1, ih h2]

/-! ### Running resetCaches twice with no intervening change -/

theorem resetCaches_again {m : Nat → Int → Option LayerMesh} {mt : Nat → Int → Int}
    {owner : ObjectNode} {s s1 s2 : BoneKeyState} {e1 e2 : Effects}
    (h1 : resetCaches m mt owner s = some (s1, e1))
    (h2 : resetCaches m mt owner s1 = some (s2, e2)) :
    s2 = s1 := by
  obtain ⟨hmap, hown, hfr, hdata, hfix, hk⟩ := resetCaches_shape h1
  have halign : resetLoop m s1.frame ((ObjectNode.subtree owner).map ObjectNode.nid)
      s1.caches [] s1.nextCid = ([] ++ s1.caches, s1.nextCid) := by
    apply resetLoop_aligned
    rw [hfr, hmap]
  simp only [resetCaches, halign, List.nil_append] at h2
  have hst : ({ s1 with
      caches := s1.caches,
      cacheOwner := some owner.nid,
      nextCid := s1.nextCid } : BoneKeyState) = s1 := by
    rw [← hown]
  rw [hst] at h2
  simp only [updateCachesCore] at h2
  split at h2
  next hemp =>
    cases h2
    rfl
  next hemp =>
    have hrl : refreshList m mt s1.frame (s1.caches.map (fun c => c.cid)) s1.caches
        = some s1.caches := by
      apply refreshList_of_fixed
      intro c hc
      rw [hfr]
      exact hfix c hc
    rw [hown, hrl] at h2
    cases h2
    rw [← hown]

/-! ### Round trip of the bone forest encoding -/

theorem roundtrip_bone_aux : ∀ (f : Nat) (bs : List Bone2) (rest : List Token)
    (sc : List String), (serializeBones bs).length < f →
    deserializeBonesN f bs.length (serializeBones bs ++ rest) sc = .ok bs rest := by
  intro f
  induction f using Nat.strong_induction_on with
  | _ f ih =>
    intro bs rest sc hlen
    cases f with
    | zero => omega
    | succ g =>
      cases bs with
      | nil => simp [serializeBones, deserializeBonesN]
      | cons b bs2 =>
        cases b with
        | mk p cs =>
          have hcs : (serializeBones cs).length < g := by
            simp [serializeBones, serializeBone] at hlen
            omega
          have hbs2 : (serializeBones bs2).length < g := by
            simp [serializeBones, serializeBone] at hlen
            omega
          have hnn : ¬(Int.ofNat cs.length < 0) :=
            Int.not_lt.mpr (Int.ofNat_nonneg cs.length)
          have htn : (Int.ofNat cs.length).toNat = cs.length := rfl
          simp only [serializeBones, serializeBone, List.cons_append, List.append_assoc,
            List.length_cons]
          simp only [deserializeBonesN, readInt, readBone]
          rw [if_neg hnn, htn]
          simp only [ih g (Nat.lt_succ_self g) cs (serializeBones bs2 ++ rest) sc hcs,
            ih g (Nat.lt_succ_self g) bs2 rest sc hbs2]

/-! ### Aborting on a negative child count anywhere in the bone section -/

theorem length_le_serializeBones : ∀ bs : List Bone2,
    bs.length ≤ (serializeBones bs).length := by
  intro bs
  induction bs with
  | nil => simp [serializeBones]
  | cons b bs2 ih =>
    cases b with
    | mk p cs =>
      simp only [serializeBones, serializeBone, List.length_cons, List.length_append]
      omega

theorem deserializeBonesN_prefix_err : ∀ (bs : List Bone2) (f k2 : Nat) (rest : List Token)
    (sc : List String) (cs0 : List Bone2) (e : DeError),
    (serializeBones bs).length < f + bs.length →
    deserializeBonesN f k2 rest sc = .err cs0 e →
    ∃ cs1, deserializeBonesN (f + bs.length) (bs.length + k2) (serializeBones bs ++ rest) sc
      = .err cs1 e := by
  intro bs
  induction bs with
  | nil =>
    intro f k2 rest sc cs0 e hlen h
    simp only [serializeBones, List.length_nil, Nat.add_zero, List.nil_append, Nat.zero_add]
    exact ⟨cs0, h⟩
  | cons b bs2 ih =>
    intro f k2 rest sc cs0 e hlen h
    cases b with
    | mk p cs =>
      have hcs : (serializeBones cs).length < f + bs2.length := by
        simp only [serializeBones, serializeBone, List.length_cons, List.length_append] at hlen
        omega
      have hbs2 : (serializeBones bs2).length < f + bs2.length := by
        simp only [serializeBones, serializeBone, List.length_cons, List.length_append] at hlen
        omega
      obtain ⟨cs1, hih⟩ := ih f k2 rest sc cs0 e hbs2 h
      have e1 : f + (bs2.length + 1) = Nat.succ (f + bs2.length) := by omega
      have e2 : bs2.length + 1 + k2 = Nat.succ (bs2.length + k2) := by omega
      simp only [List.length_cons, e1, e2, serializeBones, serializeBone, List.cons_append,
        List.append_assoc]
      have hnn : ¬(Int.ofNat cs.length < 0) :=
        Int.not_lt.mpr (Int.ofNat_nonneg cs.length)
      have htn : (Int.ofNat cs.length).toNat = cs.length := rfl
      simp only [deserializeBonesN, readInt, readBone]
      rw [if_neg hnn, htn,
        roundtrip_bone_aux (f + bs2.length) cs (serializeBones bs2 ++ rest) sc hcs]
      simp only [hih]
      exact ⟨Bone2.mk p cs :: cs1, rfl⟩

theorem deserializeBonesN_bad_child : ∀ (path : List (Int × List Bone2)) (n : Int)
    (f k : Nat) (rest : List Token) (sc : List String),
    n < 0 → (badBoneSection n path).length ≤ f → 1 ≤ k →
    ∃ cs, deserializeBonesN f k (badBoneSection n path ++ rest) sc
      = .err cs { scopes := sc, msg := "invalid child count" } := by
  intro path
  induction path with
  | nil =>
    intro n f k rest sc hn hf hk
    cases f with
    | zero => simp [badBoneSection] at hf
    | succ f1 =>
      cases k with
      | zero => omega
      | succ k1 =>
        simp only [badBoneSection, List.cons_append, List.nil_append]
        simp only [deserializeBonesN, readInt]
        rw [if_pos hn]
        exact ⟨[Bone2.mk 0 []], rfl⟩
  | cons fr path2 ih =>
    intro n f k rest sc hn hf hk
    cases fr with
    | mk p pre =>
      cases f with
      | zero => simp [badBoneSection] at hf
      | succ f1 =>
        cases k with
        | zero => omega
        | succ k1 =>
          have hlenpre := length_le_serializeBones pre
          have hflen : (badBoneSection n ((p, pre) :: path2)).length ≤ f1 + 1 := hf
          have hlen2 : 2 + (serializeBones pre).length
              + (badBoneSection n path2).length ≤ f1 + 1 := by
            simp only [badBoneSection, List.length_cons, List.length_append] at hflen
            omega
          have hbad2 : (badBoneSection n path2).length ≤ f1 - pre.length := by omega
          have hsplit : f1 = (f1 - pre.length) + pre.length := by omega
          have hpre : (serializeBones pre).length < (f1 - pre.length) + pre.length := by
            omega
          obtain ⟨cs0, h0⟩ := ih n (f1 - pre.length) 1 rest sc hn hbad2 (le_refl 1)
          obtain ⟨cs1, h1⟩ := deserializeBonesN_prefix_err pre (f1 - pre.length) 1
            (badBoneSection n path2 ++ rest) sc cs0 _ hpre h0
          rw [← hsplit] at h1
          simp only [badBoneSection, List.cons_append, List.append_assoc]
          have hnn : ¬(Int.ofNat (pre.length + 1) < 0) :=
            Int.not_lt.mpr (Int.ofNat_nonneg (pre.length + 1))
          have htn : (Int.ofNat (pre.length + 1)).toNat = pre.length + 1 := rfl
          simp only [deserializeBonesN, readInt, readBone]
          rw [if_neg hnn, htn, h1]
          exact ⟨[Bone2.mk p cs1], rfl⟩

/-! ### Round trip of the cache list encoding -/

theorem roundtrip_caches : ∀ (cs : List Cache) (rest : List Token) (sc : List String) (k : Nat),
    deserializeCaches cs.length (serializeCaches cs ++ rest) sc k
      = .ok (restoreCaches k cs) rest (k + cs.length) := by
  intro cs
  induction cs with
  | nil =>
    intro rest sc k
    simp [serializeCaches, deserializeCaches, restoreCaches]
  | cons c cs2 ih =>
    intro rest sc k
    cases hn : c.node with
    | some nid =>
      simp only [serializeCaches, serializeCache, hn, List.cons_append, List.append_assoc,
        List.length_cons]
      simp only [deserializeCaches, readRef, readMtx, readFrame, readInflu, List.nil_append,
        ih rest sc (k + 1)]
      simp only [restoreCaches, hn]
      have hk : k + 1 + cs2.length = k + (cs2.length + 1) := by omega
      rw [hk]
    | none =>
      simp only [serializeCaches, serializeCache, hn, List.cons_append, List.append_assoc,
        List.length_cons]
      simp only [deserializeCaches, readRef, readMtx, readFrame, readInflu, List.nil_append,
        ih rest sc (k + 1)]
      simp only [restoreCaches, hn]
      have hk : k + 1 + cs2.length = k + (cs2.length + 1) := by omega
      rw [hk]

/-! ### Round trip of the full BoneKey encoding -/

theorem deserializeBK_serializeBK (x s0 : BoneKeyState) :
    deserializeBK s0 (serializeBK x)
      = .ok { data := x.data,
              caches := restoreCaches s0.nextCid x.caches,
              cacheOwner := x.cacheOwner,
              frame := s0.frame,
              nextCid := s0.nextCid + x.caches.length } [] := by
  have hnn1 : ¬(Int.ofNat x.data.length < 0) := Int.not_lt.mpr (Int.ofNat_nonneg _)
  have hnn2 : ¬(Int.ofNat x.caches.length < 0) := Int.not_lt.mpr (Int.ofNat_nonneg _)
  have htn1 : (Int.ofNat x.data.length).toNat = x.data.length := rfl
  have htn2 : (Int.ofNat x.caches.length).toNat = x.caches.length := rfl
  have hcs := roundtrip_caches x.caches [] ["BoneKey"] s0.nextCid
  rw [List.append_nil] at hcs
  cases ho : x.cacheOwner with
  | some oid =>
    have hch := roundtrip_bone_aux ((serializeBones x.data
        ++ Token.ref (some oid) :: Token.int (Int.ofNat x.caches.length)
          :: serializeCaches x.caches).length + 1) x.data
        (Token.ref (some oid) :: Token.int (Int.ofNat x.caches.length)
          :: serializeCaches x.caches) ["BoneKey"]
        (by simp only [List.length_append]; omega)
    simp only [serializeBK, ho, deserializeBK, readInt, List.cons_append]
    rw [if_neg hnn1, htn1, hch]
    simp only [readRef, readInt]
    rw [if_neg hnn2, htn2, hcs]
  | none =>
    have hch := roundtrip_bone_aux ((serializeBones x.data
        ++ Token.ref none :: Token.int (Int.ofNat x.caches.length)
          :: serializeCaches x.caches).length + 1) x.data
        (Token.ref none :: Token.int (Int.ofNat x.caches.length)
          :: serializeCaches x.caches) ["BoneKey"]
        (by simp only [List.length_append]; omega)
    simp only [serializeBK, ho, deserializeBK, readInt, List.cons_append]
    rw [if_neg hnn1, htn1, hch]
    simp only [readRef, readInt]
    rw [if_neg hnn2, htn2, hcs]

/-! ### Projections of the restored cache list -/

theorem restoreCaches_length : ∀ (cs : List Cache) (k : Nat),
    (restoreCaches k cs).length = cs.length := by
  intro cs
  induction cs with
  | nil => intro k; rfl
  | cons c cs2 ih => intro k; simp [restoreCaches, ih]

theorem restoreCaches_struct : ∀ (cs : List Cache) (k : Nat),
    (restoreCaches k cs).map cacheStruct = cs.map cacheStruct := by
  intro cs
  induction cs with
  | nil => intro k; rfl
  | cons c cs2 ih => intro k; simp [restoreCaches, cacheStruct, ih]

theorem restoreCaches_map_node : ∀ (cs : List Cache) (k : Nat),
    (restoreCaches k cs).map (fun c => c.node) = cs.map (fun c => c.node) := by
  intro cs
  induction cs with
  | nil => intro k; rfl
  | cons c cs2 ih => intro k; simp [restoreCaches, ih]

/-! ## Claim theorems -/

/-- Claim C1 (code bug): the claim says the core recompute routine, for a
target whose node has no mesh at the key's frame, completes without failing
the batch and merely skips that target. The source reads the frame sign
through the mesh pointer (BoneKey.cpp:117) BEFORE the null check
(BoneKey.cpp:119), so an absent mesh is a null-pointer dereference; in the
embedding the batch aborts (`none`) instead of completing: evaluated here
at a batch of one target bound to node 1 with every mesh absent. -/
theorem bonekey_c1_absent_mesh_crashes :
    updateCachesCore exNoMesh exZeroMtx exC1State [0] = none := rfl

/-- Claim C2: deserializing the stream produced by `serialize`, with the
deferred node-identity references resolved, rebuilds a state structurally
equal to the serialized one: the same bone forest (topology and per-bone
fields in order), the same owner binding, the same number of caches, and
per cache the same node binding, inner matrix, frame sign and influence
record. -/
theorem bonekey_c2_roundtrip (x s0 : BoneKeyState) :
    ∃ s', deserializeBK s0 (serializeBK x) = .ok s' []
      ∧ s'.data = x.data
      ∧ s'.cacheOwner = x.cacheOwner
      ∧ s'.caches.length = x.caches.length
      ∧ s'.caches.map cacheStruct = x.caches.map cacheStruct :=
  ⟨_, deserializeBK_serializeBK x s0, rfl, rfl,
    restoreCaches_length x.caches s0.nextCid, restoreCaches_struct x.caches s0.nextCid⟩

/-- Claim C3: after a completed `resetCaches(project, owner)`, a cache
bound to node `n` exists iff `n` lies in the owner's subtree and has a
mesh with at least one vertex at the current time with the frame
overridden to this key's frame. -/
theorem bonekey_c3_cache_pruning {m : Nat → Int → Option LayerMesh} {mt : Nat → Int → Int}
    {owner : ObjectNode} {s s' : BoneKeyState} {e : Effects}
    (h : resetCaches m mt owner s = some (s', e)) (nid : Nat) :
    (∃ c ∈ s'.caches, c.node = some nid)
      ↔ (nid ∈ (ObjectNode.subtree owner).map ObjectNode.nid
          ∧ hasValidMesh (m nid s.frame) = true) := by
  obtain ⟨hmap, _, _, _, _, _⟩ := resetCaches_shape h
  rw [mem_node_of_map_eq hmap nid]
  simp [List.mem_filter]

/-- Claim C4: running `resetCaches` twice with the same owner and no
change to the scene or the meshes leaves the very same cache objects
(compared by allocation identity, via the pop-reuse path), allocates no
new cache, and every node's cache after the second run is the identical
instance it held after the first. -/
theorem bonekey_c4_cache_reuse {m : Nat → Int → Option LayerMesh} {mt : Nat → Int → Int}
    {owner : ObjectNode} {s s1 s2 : BoneKeyState} {e1 e2 : Effects}
    (h1 : resetCaches m mt owner s = some (s1, e1))
    (h2 : resetCaches m mt owner s1 = some (s2, e2)) :
    s2.caches = s1.caches ∧ s2.nextCid = s1.nextCid
    ∧ ∀ nid, findCache s2.caches nid = findCache s1.caches nid := by
  have he := resetCaches_again h1 h2
  rw [he]
  exact ⟨rfl, rfl, fun _ => rfl⟩

/-- Claim C5: the targeted update only collects existing caches (never
creates one), deduplicates the collected list, collects only caches bound
to nodes inside some requested root that lies in the owner's subtree, and
leaves every cache whose identity was not collected untouched. -/
theorem bonekey_c5_targeted_scoping {m : Nat → Int → Option LayerMesh} {mt : Nat → Int → Int}
    {owner : ObjectNode} {roots : List ObjectNode} {s s' : BoneKeyState} {e : Effects}
    (h : updateCachesT m mt owner roots s = some (s', e)) :
    (∀ c ∈ collectTargets owner roots s.caches, c ∈ s.caches)
    ∧ ((collectTargets owner roots s.caches).map (fun c => c.cid)).Nodup
    ∧ (∀ c ∈ collectTargets owner roots s.caches,
        ∃ r ∈ roots, leftContainsRight owner r = true ∧
          ∃ nid ∈ (ObjectNode.subtree r).map ObjectNode.nid, c.node = some nid)
    ∧ s'.caches.map (fun c => c.cid) = s.caches.map (fun c => c.cid)
    ∧ (∀ c ∈ s.caches,
        c.cid ∉ (collectTargets owner roots s.caches).map (fun c => c.cid) → c ∈ s'.caches) := by
  obtain ⟨_, hc, _, _, _, hu⟩ := updateCachesT_shape h
  exact ⟨fun c hc2 => (collectTargets_mem hc2).1,
    collectTargets_nodup owner roots s.caches,
    fun c hc2 => (collectTargets_mem hc2).2,
    hc, hu⟩

/-- Claim C10: the core recompute with an empty target list is a complete
no-op: it returns at once for any state — the owner may even be unset —
leaving the state untouched, without taking the object-tree write lock and
without waking the worker pool. -/
theorem bonekey_c10_empty_batch_noop (m : Nat → Int → Option LayerMesh)
    (mt : Nat → Int → Int) (s : BoneKeyState) :
    updateCachesCore m mt s [] = some (s, { locked := false, woke := false }) := rfl

/-! ### Transport of node bindings along map equality -/

theorem filterMap_node_congr {cs1 cs2 : List Cache}
    (h : cs1.map (fun c => c.node) = cs2.map (fun c => c.node)) :
    cs1.filterMap (fun c => c.node) = cs2.filterMap (fun c => c.node) := by
  have e1 : cs1.filterMap (fun c => c.node)
      = (cs1.map (fun c => c.node)).filterMap id := by
    rw [List.filterMap_map]
    rfl
  have e2 : cs2.filterMap (fun c => c.node)
      = (cs2.map (fun c => c.node)).filterMap id := by
    rw [List.filterMap_map]
    rfl
  rw [e1, e2, h]

/-! ### Evaluation of the example scene -/

theorem exOwner_subtree_ids :
    (ObjectNode.subtree exOwner).map ObjectNode.nid = [0, 1, 2, 3] := by
  simp [exOwner, ObjectNode.subtree, ObjectNode.subtreeList, ObjectNode.nid]

theorem exRoot2_subtree_ids :
    (ObjectNode.subtree exRoot2).map ObjectNode.nid = [2, 3] := by
  simp [exRoot2, ObjectNode.subtree, ObjectNode.subtreeList, ObjectNode.nid]

theorem exOwner_contains_exRoot2 : leftContainsRight exOwner exRoot2 = true := by
  simp [leftContainsRight, exOwner, exRoot2, ObjectNode.subtree, ObjectNode.subtreeList,
    ObjectNode.nid]

theorem exReset_eval :
    resetCaches exMeshAt exMtxAt exOwner exEmptyState
      = some (exResetState, { locked := true, woke := true }) := by
  simp only [resetCaches]
  rw [exOwner_subtree_ids]
  rfl

theorem exReset_again_eval :
    resetCaches exMeshAt exMtxAt exOwner exResetState
      = some (exResetState, { locked := true, woke := true }) := by
  simp only [resetCaches]
  rw [exOwner_subtree_ids]
  rfl

theorem exUpdateT_eval :
    updateCachesT exMeshAt exMtxAt exOwner [exRoot2] exResetState
      = some (exResetState, { locked := true, woke := true }) := by
  have hct : collectTargets exOwner [exRoot2] exResetState.caches
      = [{ cid := 1, node := some 2, innerMtx := 24, frameSign := 104, influence := 0 }] := by
    simp only [collectTargets, collectRoots, collectNodes, exOwner_contains_exRoot2,
      exRoot2_subtree_ids, if_true]
    rfl
  simp only [updateCachesT, hct]
  rfl

/-- Witness for C3: at the example scene, node 2 holds a cache after the
rebuild, and indeed lies under the owner with a valid mesh. -/
theorem bonekey_c3_cache_pruning_witness :
    (∃ c ∈ exResetState.caches, c.node = some 2)
      ↔ (2 ∈ (ObjectNode.subtree exOwner).map ObjectNode.nid
          ∧ hasValidMesh (exMeshAt 2 exEmptyState.frame) = true) :=
  bonekey_c3_cache_pruning exReset_eval 2

/-- Witness for C4: both rebuilds from the example scene land on the same
state, so the theorem applies with identical cache lists. -/
theorem bonekey_c4_cache_reuse_witness :
    exResetState.caches = exResetState.caches
    ∧ exResetState.nextCid = exResetState.nextCid
    ∧ ∀ nid, findCache exResetState.caches nid = findCache exResetState.caches nid :=
  bonekey_c4_cache_reuse exReset_eval exReset_again_eval

/-- Witness for C5 at the example scene, requesting the subtree of node 2. -/
theorem bonekey_c5_targeted_scoping_witness :
    (∀ c ∈ collectTargets exOwner [exRoot2] exResetState.caches, c ∈ exResetState.caches)
    ∧ ((collectTargets exOwner [exRoot2] exResetState.caches).map (fun c => c.cid)).Nodup
    ∧ (∀ c ∈ collectTargets exOwner [exRoot2] exResetState.caches,
        ∃ r ∈ [exRoot2], leftContainsRight exOwner r = true ∧
          ∃ nid ∈ (ObjectNode.subtree r).map ObjectNode.nid, c.node = some nid)
    ∧ exResetState.caches.map (fun c => c.cid) = exResetState.caches.map (fun c => c.cid)
    ∧ (∀ c ∈ exResetState.caches,
        c.cid ∉ (collectTargets exOwner [exRoot2] exResetState.caches).map (fun c => c.cid)
          → c ∈ exResetState.caches) :=
  bonekey_c5_targeted_scoping exUpdateT_eval

/-- Claim C6: whenever decode reads a negative count — the top bone count
at the head of the stream, the cache count after any well-formed bone
section and any owner reference, or a child count of ANY bone record in
the stream (after any run of complete top bones, at any nesting depth,
after any complete siblings at each level, as generated by
`badBoneSection`) — it aborts decoding of this Cache Set with the
corresponding descriptive format error, reported under the log scope
"BoneKey". -/
theorem bonekey_c6_negative_counts (s : BoneKeyState) (n : Int) (h : n < 0) :
    (∀ rest : List Token,
      (deserializeBK s (Token.int n :: rest)).errInfo
        = some { scopes := ["BoneKey"], msg := "invalid top bone count" })
    ∧ (∀ (bs : List Bone2) (r : Option Nat) (rest : List Token),
      (deserializeBK s (Token.int (Int.ofNat bs.length)
          :: (serializeBones bs ++ Token.ref r :: Token.int n :: rest))).errInfo
        = some { scopes := ["BoneKey"], msg := "invalid cache count" })
    ∧ (∀ (pre : List Bone2) (path : List (Int × List Bone2)) (rest : List Token),
      (deserializeBK s (Token.int (Int.ofNat (pre.length + 1))
          :: (serializeBones pre ++ (badBoneSection n path ++ rest)))).errInfo
        = some { scopes := ["BoneKey"], msg := "invalid child count" }) := by
  refine ⟨?_, ?_, ?_⟩
  · intro rest
    simp only [deserializeBK, readInt, if_pos h]
    rfl
  · intro bs r rest
    have hnn : ¬(Int.ofNat bs.length < 0) := Int.not_lt.mpr (Int.ofNat_nonneg bs.length)
    have htn : (Int.ofNat bs.length).toNat = bs.length := rfl
    have hch := roundtrip_bone_aux
      ((serializeBones bs ++ Token.ref r :: Token.int n :: rest).length + 1) bs
      (Token.ref r :: Token.int n :: rest) ["BoneKey"]
      (by simp only [List.length_append]; omega)
    cases r with
    | some oid =>
      simp only [deserializeBK, readInt]
      rw [if_neg hnn, htn, hch]
      simp only [readRef, readInt]
      rw [if_pos h]
      rfl
    | none =>
      simp only [deserializeBK, readInt]
      rw [if_neg hnn, htn, hch]
      simp only [readRef, readInt]
      rw [if_pos h]
      rfl
  · intro pre path rest
    have hlenpre := length_le_serializeBones pre
    have hnn : ¬(Int.ofNat (pre.length + 1) < 0) :=
      Int.not_lt.mpr (Int.ofNat_nonneg (pre.length + 1))
    have htn : (Int.ofNat (pre.length + 1)).toNat = pre.length + 1 := rfl
    have hsplit : (serializeBones pre ++ (badBoneSection n path ++ rest)).length + 1
        = ((serializeBones pre ++ (badBoneSection n path ++ rest)).length + 1
            - pre.length) + pre.length := by
      simp only [List.length_append]
      omega
    obtain ⟨cs0, h0⟩ := deserializeBonesN_bad_child path n
      ((serializeBones pre ++ (badBoneSection n path ++ rest)).length + 1 - pre.length) 1
      rest ["BoneKey"] h (by simp only [List.length_append]; omega) (le_refl 1)
    obtain ⟨cs1, h1⟩ := deserializeBonesN_prefix_err pre
      ((serializeBones pre ++ (badBoneSection n path ++ rest)).length + 1 - pre.length) 1
      (badBoneSection n path ++ rest) ["BoneKey"] cs0 _
      (by simp only [List.length_append]; omega) h0
    rw [← hsplit] at h1
    simp only [deserializeBK, readInt]
    rw [if_neg hnn, htn, h1]
    rfl

/-- Witness for C6: the three negative-count aborts at count -1, with a
complete bone before the poisoned record and the poisoned child count one
level deep inside a bone of payload 5. -/
theorem bonekey_c6_negative_counts_witness :
    (deserializeBK exEmptyState (Token.int (-1) :: [])).errInfo
        = some { scopes := ["BoneKey"], msg := "invalid top bone count" }
    ∧ (deserializeBK exEmptyState (Token.int (Int.ofNat [Bone2.mk 9 []].length)
        :: (serializeBones [Bone2.mk 9 []] ++ Token.ref none :: Token.int (-1) :: []))).errInfo
        = some { scopes := ["BoneKey"], msg := "invalid cache count" }
    ∧ (deserializeBK exEmptyState (Token.int (Int.ofNat ([Bone2.mk 9 []].length + 1))
        :: (serializeBones [Bone2.mk 9 []]
          ++ (badBoneSection (-1) [(5, [])] ++ [])))).errInfo
        = some { scopes := ["BoneKey"], msg := "invalid child count" } :=
  ⟨(bonekey_c6_negative_counts exEmptyState (-1) (by decide)).1 [],
   (bonekey_c6_negative_counts exEmptyState (-1) (by decide)).2.1 [Bone2.mk 9 []] none [],
   (bonekey_c6_negative_counts exEmptyState (-1) (by decide)).2.2 [Bone2.mk 9 []] [(5, [])] []⟩

/-- Counterexample to C7 as stated: the stream `[1, -1]` (one top bone,
negative child count) makes `deserialize` fail with a format error, yet
the default-constructed bone pushed before decoding stays reachable in the
bone forest — the forest is not empty after the failure. -/
theorem bonekey_c7_counterexample :
    (deserializeBK exEmptyState exC7Stream).isOk = false
    ∧ (deserializeBK exEmptyState exC7Stream).errInfo
        = some { scopes := ["BoneKey"], msg := "invalid child count" }
    ∧ (deserializeBK exEmptyState exC7Stream).stateOf.data = [Bone2.mk 0 []]
    ∧ (deserializeBK exEmptyState exC7Stream).stateOf.data ≠ [] :=
  ⟨rfl, rfl, rfl, by decide⟩

/-- Claim C7 as amended: every format error is fatal to the decode (the
result is an error, never a partial success), and for a stream whose top
bone count is negative — in particular -1 — the failure leaves no bones
reachable: the forest and the cache collection are empty. A format error
striking after bone construction has begun can instead leave partially
constructed bones reachable (see the counterexample). -/
theorem bonekey_c7_amended (s : BoneKeyState) (rest : List Token) (n : Int) (h : n < 0) :
    (deserializeBK s (Token.int n :: rest)).isOk = false
    ∧ (deserializeBK s (Token.int n :: rest)).errInfo
        = some { scopes := ["BoneKey"], msg := "invalid top bone count" }
    ∧ (deserializeBK s (Token.int n :: rest)).stateOf.data = []
    ∧ (deserializeBK s (Token.int n :: rest)).stateOf.caches = [] := by
  simp only [deserializeBK, readInt, if_pos h]
  exact ⟨rfl, rfl, rfl, rfl⟩

/-- Witness for the amended C7 at count -1. -/
theorem bonekey_c7_amended_witness :
    (deserializeBK exEmptyState [Token.int (-1)]).isOk = false
    ∧ (deserializeBK exEmptyState [Token.int (-1)]).errInfo
        = some { scopes := ["BoneKey"], msg := "invalid top bone count" }
    ∧ (deserializeBK exEmptyState [Token.int (-1)]).stateOf.data = []
    ∧ (deserializeBK exEmptyState [Token.int (-1)]).stateOf.caches = [] :=
  bonekey_c7_amended exEmptyState [] (-1) (by decide)

/-- Claim C8 (code bug): the claim says a copy — including copy assignment
of a Data value to itself — leaves the destination structurally equal to
the source's pre-copy forest. `Data::operator=` destroys the destination
forest first (BoneKey.cpp:27) and only then clones from the right-hand
side, so self-assignment clears the forest: in the store model, key 0
held one bone before `dataAssign h 0 0` and holds none afterwards. -/
theorem bonekey_c8_self_assign_clears :
    dataAssign exHeap 0 0 0 = [] ∧ exHeap 0 = [Bone2.mk 7 []] := ⟨rfl, rfl⟩

/-- Counterexample to C9 as stated: deserializing a stream whose two cache
records name the same node succeeds and leaves two caches bound to node 3. -/
theorem bonekey_c9_counterexample :
    (deserializeBK exEmptyState exC9Stream).isOk = true
    ∧ (deserializeBK exEmptyState exC9Stream).stateOf.caches.filterMap (fun c => c.node)
        = [3, 3]
    ∧ ¬ ([3, 3] : List Nat).Nodup :=
  ⟨rfl, rfl, by decide⟩

/-- Claim C9 as amended: after `resetCaches` (on a scene with distinct
node identities), after a completed targeted `updateCaches`, after
`popCache` and after `destroyCaches`, the collection holds at most one
cache per node (provided it did before, where applicable); after
`deserialize` of a stream produced by `serialize` from a state satisfying
the invariant the same holds — but deserializing an arbitrary stream does
not re-establish it (see the counterexample). -/
theorem bonekey_c9_uniqueness_amended
    (m : Nat → Int → Option LayerMesh) (mt : Nat → Int → Int)
    (owner : ObjectNode) (roots : List ObjectNode)
    (s s' srt s0 : BoneKeyState) (e e' : Effects) (nid : Nat)
    (hn : ((ObjectNode.subtree owner).map ObjectNode.nid).Nodup)
    (hu : (s.caches.filterMap (fun c => c.node)).Nodup) :
    (resetCaches m mt owner s = some (s', e)
      → (s'.caches.filterMap (fun c => c.node)).Nodup)
    ∧ (updateCachesT m mt owner roots s = some (srt, e')
      → (srt.caches.filterMap (fun c => c.node)).Nodup)
    ∧ ((popCache s.caches nid).2.filterMap (fun c => c.node)).Nodup
    ∧ ((destroyCaches s).caches.filterMap (fun c => c.node)).Nodup
    ∧ ((deserializeBK s0 (serializeBK s)).stateOf.caches.filterMap (fun c => c.node)).Nodup := by
  refine ⟨?_, ?_, ?_, ?_, ?_⟩
  · intro h
    obtain ⟨hmap, _, _, _, _, _⟩ := resetCaches_shape h
    rw [filterMap_node_of_map_eq hmap]
    exact List.Nodup.filter _ hn
  · intro h
    obtain ⟨hnode, _, _, _, _, _⟩ := updateCachesT_shape h
    rw [filterMap_node_congr hnode]
    exact hu
  · exact List.Nodup.sublist (List.Sublist.filterMap _ (popCache_sublist s.caches nid)) hu
  · simp [destroyCaches]
  · rw [deserializeBK_serializeBK s s0]
    have hr : (restoreCaches s0.nextCid s.caches).filterMap (fun c => c.node)
        = s.caches.filterMap (fun c => c.node) :=
      filterMap_node_congr (restoreCaches_map_node s.caches s0.nextCid)
    simpa [DeResult.stateOf, hr] using hu

/-- Witness for the amended C9 at the example scene and the rebuilt key. -/
theorem bonekey_c9_uniqueness_amended_witness :
    (resetCaches exMeshAt exMtxAt exOwner exResetState
        = some (exResetState, { locked := true, woke := true })
      → (exResetState.caches.filterMap (fun c => c.node)).Nodup)
    ∧ (updateCachesT exMeshAt exMtxAt exOwner [exRoot2] exResetState
        = some (exResetState, { locked := true, woke := true })
      → (exResetState.caches.filterMap (fun c => c.node)).Nodup)
    ∧ ((popCache exResetState.caches 2).2.filterMap (fun c => c.node)).Nodup
    ∧ ((destroyCaches exResetState).caches.filterMap (fun c => c.node)).Nodup
    ∧ ((deserializeBK exEmptyState (serializeBK exResetState)).stateOf.caches.filterMap
        (fun c => c.node)).Nodup :=
  bonekey_c9_uniqueness_amended exMeshAt exMtxAt exOwner [exRoot2]
    exResetState exResetState exResetState exEmptyState
    { locked := true, woke := true } { locked := true, woke := true } 2
    (by decide) (by decide)
